import Mathlib

/-!
# Verification of the Yugioh Timeless tournament engine (`timeless.py`)

Shallow embedding of the pairing/scoring engine of the repository:

* `random_timeless_square` (rejection sampling of 4×4 squares),
* the entry-fee validation conditions of `supervised_input`,
* `Duelist` equality, `Duelist.enter_unique_duelists`,
* `calculate_prizes`,
* the round structure of `timeless` (pairing configurations, deck lookups,
  final-round ordering via `np.flip(np.argsort(...))`, tie detection, and
  win recording).

Randomness and interactive input are modelled as explicit streams: a random
source is a function `ℕ → _` giving the successive samples, and user input is
a function giving the successive (already normalised) entries.  Loops that in
Python run until success are modelled with explicit fuel; `none` means the
fuel ran out, mirroring the fact that the Python loop would still be running.
-/

/-! ## Squares and `random_timeless_square` (timeless.py lines 125–164) -/

/-- A 4×4 square of integers, as produced by
`np.array([np.random.permutation(4) for _ in range(4)])`. -/
def Square : Type := Fin 4 → Fin 4 → ℕ

/-- Build a square from a list of rows (row-major), defaulting to 0. -/
def mkSquare (rows : List (List ℕ)) : Square :=
  fun i j => (rows.getD i.val []).getD j.val 0

/-- Row `i` of a square, as a list. -/
def rowList (s : Square) (i : Fin 4) : List ℕ :=
  [s i 0, s i 1, s i 2, s i 3]

/-- Column `j` of a square, as a list. -/
def colList (s : Square) (j : Fin 4) : List ℕ :=
  [s 0 j, s 1 j, s 2 j, s 3 j]

/-- The main diagonal, `random_square.diagonal()`. -/
def diagList (s : Square) : List ℕ :=
  [s 0 0, s 1 1, s 2 2, s 3 3]

/-- The anti-diagonal, `np.fliplr(random_square).diagonal()`:
`fliplr` reverses each row, so entry `i` is `s i (3-i)`. -/
def antidiagList (s : Square) : List ℕ :=
  [s 0 3, s 1 2, s 2 1, s 3 0]

/-- The off-diagonal quadruple
`{random_square[0,1], random_square[1,0], random_square[2,3], random_square[3,2]}`. -/
def offdiagList (s : Square) : List ℕ :=
  [s 0 1, s 1 0, s 2 3, s 3 2]

/-- `len(set(xs)) == 4` for a list of four integers. -/
def hasFourDistinct (l : List ℕ) : Bool :=
  l.dedup.length == 4

/-- The acceptance test of `random_timeless_square`:
`unique_diagonal and unique_antidiagonal and unique_offdiagonal`. -/
def is_timeless (s : Square) : Bool :=
  hasFourDistinct (diagList s) && hasFourDistinct (antidiagList s) &&
    hasFourDistinct (offdiagList s)

/-- Each row of the sampled square is a permutation of `{0,1,2,3}`
(`np.random.permutation(4)` per row). -/
def allRowsPerm (s : Square) : Prop :=
  ∀ i : Fin 4, (rowList s i).Perm [0, 1, 2, 3]

instance (s : Square) : Decidable (allRowsPerm s) :=
  Fintype.decidableForallFintype

/-- The rejection-sampling loop of `random_timeless_square`, run over an
explicit random source `stream` (the successive sampled squares), starting at
sample index `k`, with explicit fuel.  The Python code is `while True:` —
there is no cap and no failure branch — so `none` means only that the given
fuel was exhausted while the loop was still running. -/
def rts_from (stream : ℕ → Square) : ℕ → ℕ → Option Square
  | 0, _ => none
  | fuel + 1, k =>
    if is_timeless (stream k) then some (stream k) else rts_from stream fuel (k + 1)

/-- `random_timeless_square` with the given random source terminates:
some finite number of iterations returns a square. -/
def terminatesOn (stream : ℕ → Square) : Prop :=
  ∃ fuel, (rts_from stream fuel 0).isSome

/-! ## Entry-fee validation (`supervised_input`, timeless.py lines 88–94, 282)

The entry fee is read with conditions
`['integer', 'multiple_of_5', 'less_than_30_characters']`, checked in order
with an early break on the first failure. -/

/-- Tail of a Python integer literal body: digits with single underscores
allowed between digits. -/
def pyDigitsTail : List Char → Bool
  | [] => true
  | '_' :: c :: rest => c.isDigit && pyDigitsTail rest
  | c :: rest => c.isDigit && pyDigitsTail rest

/-- Body of a Python integer literal: nonempty, starts with a digit,
then `pyDigitsTail`. -/
def pyIntBody : List Char → Bool
  | [] => false
  | c :: rest => c.isDigit && pyDigitsTail rest

/-- `int(input_string)` on an already-normalised string (no surrounding
whitespace, which `capwords` has removed): optional sign, then a digit
string with optional single underscores between digits.  Returns the value,
or `none` where Python raises `ValueError`. -/
def pyInt (s : String) : Option ℤ :=
  let cs := s.toList
  let signBody : ℤ × List Char :=
    match cs with
    | '-' :: rest => (-1, rest)
    | '+' :: rest => (1, rest)
    | _ => (1, cs)
  if pyIntBody signBody.2 then
    some (signBody.1 *
      ((signBody.2.filter (· ≠ '_')).foldl
        (fun acc c => 10 * acc + ((c.toNat - '0'.toNat : ℕ) : ℤ)) 0))
  else none

/-- The `'integer'` condition check (`_is_string_of_integer`). -/
def is_string_of_integer (s : String) : Bool :=
  (pyInt s).isSome

/-- The `'multiple_of_5'` condition check:
`int(input_string) % 5 == 0 and int(input_string) >= 0`.  (In the composed
entry-fee check this is only reached when `'integer'` already passed, so
the `none` branch is unreachable there; Python would raise.) -/
def multiple_of_5 (s : String) : Bool :=
  match pyInt s with
  | some n => (n % 5 == 0) && decide (0 ≤ n)
  | none => false

/-- The `'less_than_30_characters'` condition check. -/
def less_than_30_characters (s : String) : Bool :=
  s.length < 30

/-- The conjunction of the entry-fee conditions, in the order of the
`conditions` list at line 282, with the loop's early break on first
failure. -/
def entryFeeCheck (s : String) : Bool :=
  is_string_of_integer s && multiple_of_5 s && less_than_30_characters s

/-! ## `Duelist` (timeless.py lines 167–271) -/

/-- The attributes of a `Duelist` instance: `name` (already normalised by
`capwords`) and `wins`. -/
structure Duelist where
  name : String
  wins : ℤ
deriving DecidableEq

/-- The possible right operands of `Duelist.__eq__`.  Distinct `Duelist`
objects are distinguished by a reference (Python object identity), with the
attributes looked up in a heap. -/
inductive PyOperand where
  | duelistRef : ℕ → PyOperand
  | intVal : ℤ → PyOperand
  | strVal : String → PyOperand

/-- `Duelist.__eq__` (lines 218–227): against another `Duelist` it is
`self is other` (object identity); against an `int` it compares `wins`;
against a `str` it compares `name`. -/
def duelist_eq (heap : ℕ → Duelist) (self : ℕ) (other : PyOperand) : Bool :=
  match other with
  | .duelistRef r => self == r
  | .intVal k => (heap self).wins == k
  | .strVal t => (heap self).name == t

/-- `{name for name in candidate_names if candidate_names.count(name) > 1}`
is nonempty (lines 264–266). -/
def has_duplicate_names (names : List String) : Bool :=
  names.any (fun n => 1 < names.count n)

/-- The retry loop of `Duelist.enter_unique_duelists` (lines 257–271), over
an explicit input source: `attempts k` is the `k`-th entered quadruple of
(already normalised) names.  An attempt with duplicates is rejected and the
whole quadruple is re-entered; the first duplicate-free attempt is
returned. -/
def enter_unique_duelists (attempts : ℕ → List String) : ℕ → ℕ → Option (List String)
  | 0, _ => none
  | fuel + 1, k =>
    if has_duplicate_names (attempts k) then enter_unique_duelists attempts fuel (k + 1)
    else some (attempts k)

/-! ## `calculate_prizes` (timeless.py lines 291–304) -/

/-- `calculate_prizes(duelists, entry_fee)`.  The comparison
`duelists[i] == 4 - i` goes through `Duelist.__eq__` with an `int` operand,
hence compares `duelists[i].wins` with `4 - i`; the function therefore only
depends on the duelists' win counts, taken here as the argument.  Python's
`entry_fee / 5` is true division, modelled in `ℚ`. -/
def calculate_prizes (duelist_wins : List ℤ) (entry_fee : ℤ) : List ℚ :=
  let base_fee : ℚ := (entry_fee : ℚ) / 5
  let prizes_base : List ℤ := [9, 6, 3, 0]
  let prizes_scaled : List ℚ := prizes_base.map (fun n => (n : ℚ) * base_fee)
  let win_bonus : List ℚ := (List.range 4).map
    (fun i => if duelist_wins.getD i 0 = 4 - (i : ℤ) then base_fee else 0)
  (List.range 4).map (fun i => prizes_scaled.getD i 0 + win_bonus.getD i 0)

/-! ## Sorting as done by `sorted` and `np.argsort` -/

/-- Insert `a` into a list, keeping an existing element `b` in front of the
incoming `a` exactly when `r b a` holds. -/
def insert_by (r : ℕ → ℕ → Bool) (a : ℕ) : List ℕ → List ℕ
  | [] => [a]
  | b :: rest => if r b a then b :: insert_by r a rest else a :: b :: rest

/-- Insertion sort, processing the elements left to right.  For four
elements this is what both Python's `sorted` (Timsort: binary insertion
below 64) and numpy's `argsort` (insertion sort below the quicksort cutoff)
perform, and like them it is stable: an element entering later is placed
after existing elements `b` with `r b a`. -/
def sort_by_rel (r : ℕ → ℕ → Bool) (l : List ℕ) : List ℕ :=
  l.foldl (fun acc a => insert_by r a acc) []

/-- `np.argsort(duelists)` on the array of four duelists: indices `0..3`
sorted ascending by win count, stable (ties keep ascending index order),
comparisons via `Duelist.__lt__`, i.e. on `wins`. -/
def argsort (w : List ℕ) : List ℕ :=
  sort_by_rel (fun b a => decide (w.getD b 0 ≤ w.getD a 0)) (List.range w.length)

/-- `np.flip(np.argsort(duelists))` (line 325): the slot order
`x, y, z, w` used for the final round when the standings are not tied. -/
def final_order (w : List ℕ) : List ℕ :=
  (argsort w).reverse

/-- `sorted(duelists, reverse=True)` on the win counts (line 319):
descending sort of the values. -/
def sort_desc (l : List ℕ) : List ℕ :=
  sort_by_rel (fun b a => decide (a ≤ b)) l

/-- `tied_win_configurations` (line 310). -/
def tied_win_configurations : List (List ℕ) :=
  [[3, 1, 1, 1], [2, 2, 2, 0]]

/-- `duelists_by_wins in tied_win_configurations` (lines 319–320): the list
comparison goes elementwise through `Duelist.__eq__` with `int` operands,
i.e. compares the sorted win counts. -/
def is_tied (wins : List ℕ) : Bool :=
  tied_win_configurations.contains (sort_desc wins)

/-- `pairing_configurations` (line 311). -/
def pairing_configurations : List (List ℕ) :=
  [[0, 1, 2, 3], [1, 3, 0, 2], [3, 0, 1, 2]]

/-- `pairing_configurations[np.random.randint(3)]` (line 323): the slot
configuration used in the tie-break branch, for a given random draw. -/
def chosen_tiebreak (r : Fin 3) : List ℕ :=
  pairing_configurations.getD r.val []

/-! ## Deck lookups per round (timeless.py lines 326–333) -/

/-- The preliminary-round quadruple `x, y, z, w = pairing_configurations[round_]`
(line 331), as `Fin 4` slot indices. -/
def pairing_quad (r : Fin 3) : Fin 4 × Fin 4 × Fin 4 × Fin 4 :=
  if r.val = 0 then (0, 1, 2, 3) else if r.val = 1 then (1, 3, 0, 2) else (3, 0, 1, 2)

/-- Deck index of slot `i` in a preliminary round with slot quadruple
`x, y, z, w`: `decks[matchup[x, y]]` for slot `x`, `decks[matchup[y, x]]`
for slot `y`, `decks[matchup[z, w]]` for slot `z`, `decks[matchup[w, z]]`
for slot `w` (lines 332–333). -/
def prelim_deck_idx (s : Square) (x y z w i : Fin 4) : ℕ :=
  if i = x then s x y else if i = y then s y x else if i = z then s z w else s w z

/-- Deck index of slot `i` in the final round with slot quadruple
`x, y, z, w`: `decks[matchup[x, x]]` for slot `x`, and so on, reading the
main diagonal (lines 326–327). -/
def final_deck_idx (s : Square) (x y z w i : Fin 4) : ℕ :=
  if i = x then s x x else if i = y then s y y else if i = z then s z z else s w w

/-! ## Recording round results (timeless.py lines 343–350) -/

/-- The update `for i in [x, y, z, w]: if duelists[i] in [winner_xy,
winner_zw]: duelists[i].wins += 1`.  In every round `[x, y, z, w]` is a
permutation of the four slots, so the loop visits each slot exactly once;
the membership test goes through `Duelist.__eq__` with `str` operands, i.e.
compares the slot's name with the two winner strings. -/
def record_round (d : Fin 4 → Duelist) (winner_xy winner_zw : String) : Fin 4 → Duelist :=
  fun i =>
    if (d i).name == winner_xy || (d i).name == winner_zw
    then { d i with wins := (d i).wins + 1 } else d i

/-- Total number of wins over the four slots. -/
def sumWins (d : Fin 4 → Duelist) : ℤ :=
  ∑ i : Fin 4, (d i).wins

/-! ## Derived observation functions and concrete squares -/

/-- The first two pairing slots of `final_order` face each other in the
first final-round match, the last two in the second (`pairings` at lines
337–338 pair `x` with `y` and `z` with `w`). -/
def final_matches (w : List ℕ) : (ℕ × ℕ) × (ℕ × ℕ) :=
  (((final_order w).getD 0 0, (final_order w).getD 1 0),
   ((final_order w).getD 2 0, (final_order w).getD 3 0))

/-- Modelled from the spec's words for the final-round ordering claim:
slots in descending win order, ties broken by ASCENDING original slot
index (a stable descending sort). -/
def claim_final_order (w : List ℕ) : List ℕ :=
  sort_by_rel
    (fun b a => decide (w.getD a 0 < w.getD b 0 ∨ (w.getD b 0 = w.getD a 0 ∧ b < a)))
    (List.range w.length)

/-- Slots in descending win order with ties broken by DESCENDING original
slot index — what reversing a stable ascending argsort produces. -/
def desc_order_ties_desc (w : List ℕ) : List ℕ :=
  sort_by_rel
    (fun b a => decide (w.getD a 0 < w.getD b 0 ∨ (w.getD b 0 = w.getD a 0 ∧ a < b)))
    (List.range w.length)

/-- Win counts of the four slots, as a list.  After the three preliminary
rounds each duelist has played three matches, so each win count is at
most 3; quantifying over `Fin 4 → Fin 4` covers exactly these states. -/
def winsVec (w : Fin 4 → Fin 4) : List ℕ :=
  [(w 0).val, (w 1).val, (w 2).val, (w 3).val]

/-- The square from the `random_timeless_square` docstring example
(timeless.py lines 146–149). -/
def exampleSquare : Square :=
  mkSquare [[2, 0, 1, 3], [3, 1, 2, 0], [2, 0, 3, 1], [1, 3, 2, 0]]

/-- A square whose rows are permutations of `{0,1,2,3}` (so it is a possible
sample of the generator's loop body) but which fails the diagonal test. -/
def nonTimelessSquare : Square :=
  mkSquare [[0, 1, 2, 3], [1, 0, 3, 2], [0, 1, 2, 3], [1, 0, 3, 2]]

/-! ## Helper lemmas -/

/-- Any square returned by the rejection-sampling loop passed the
`is_timeless` test and is one of the sampled squares. -/
lemma rts_from_sound (stream : ℕ → Square) :
    ∀ fuel k sq, rts_from stream fuel k = some sq →
      is_timeless sq = true ∧ ∃ j, sq = stream j := by
  intro fuel
  induction fuel with
  | zero => intro k sq h; simp [rts_from] at h
  | succ n ih =>
    intro k sq h
    rw [rts_from] at h
    by_cases ht : is_timeless (stream k)
    · rw [if_pos ht] at h
      obtain rfl : stream k = sq := by simpa using h
      exact ⟨ht, k, rfl⟩
    · rw [if_neg ht] at h
      exact ih (k + 1) sq h

/-- If no sampled square ever passes the test, the loop never returns. -/
lemma rts_from_none (stream : ℕ → Square)
    (hbad : ∀ n, is_timeless (stream n) = false) :
    ∀ fuel k, rts_from stream fuel k = none := by
  intro fuel
  induction fuel with
  | zero => intro k; rw [rts_from]
  | succ n ih =>
    intro k
    rw [rts_from, if_neg (by simp [hbad k]), ih]

/-- If the `n`-th sample (counting from `k`) passes the test, the loop
returns some square within `n + 1` iterations. -/
lemma rts_from_complete (stream : ℕ → Square) :
    ∀ n k, is_timeless (stream (k + n)) = true →
      ∃ sq, rts_from stream (n + 1) k = some sq := by
  intro n
  induction n with
  | zero =>
    intro k h
    exact ⟨stream k, by rw [rts_from, if_pos (by simpa using h)]⟩
  | succ m ih =>
    intro k h
    by_cases ht : is_timeless (stream k)
    · exact ⟨stream k, by rw [rts_from, if_pos ht]⟩
    · obtain ⟨sq, hsq⟩ := ih (k + 1) (by rw [show k + 1 + m = k + (m + 1) by omega]; exact h)
      exact ⟨sq, by rw [rts_from, if_neg ht]; exact hsq⟩

/-- For a list of four entries, the check `len(set(xs)) == 4` holds exactly
when the entries are pairwise distinct. -/
lemma hasFourDistinct_iff {l : List ℕ} (hlen : l.length = 4) :
    hasFourDistinct l = true ↔ l.Nodup := by
  unfold hasFourDistinct
  rw [beq_iff_eq]
  constructor
  · intro h
    rw [← List.dedup_eq_self]
    exact (List.dedup_sublist l).eq_of_length (by omega)
  · intro h
    rw [List.dedup_eq_self.mpr h, hlen]

/-! ## Claims -/

/-- C1 (counterexample).  The square from the generator's own docstring
example has permutation rows and passes the `is_timeless` acceptance test —
so a random source producing it makes `random_timeless_square` return it —
yet its column 0 is `[2, 3, 2, 1]`, not a permutation of `{0,1,2,3}`.  The
generator never checks columns, so "each column is a permutation" fails. -/
theorem c1_counterexample :
    allRowsPerm exampleSquare ∧
    rts_from (fun _ => exampleSquare) 1 0 = some exampleSquare ∧
    ¬ (colList exampleSquare 0).Perm [0, 1, 2, 3] :=
  ⟨by decide, rfl, by decide⟩

/-- C1 (amended).  Every square returned by `random_timeless_square` has
each ROW a permutation of `{0,1,2,3}` (rows are sampled as permutations) and
the main diagonal, anti-diagonal and off-diagonal quadruple each hold four
distinct values (the acceptance test); columns need not be permutations. -/
theorem c1_generated_square_properties (stream : ℕ → Square) (fuel : ℕ) (sq : Square)
    (hrows : ∀ n, allRowsPerm (stream n))
    (hret : rts_from stream fuel 0 = some sq) :
    allRowsPerm sq ∧ (diagList sq).Nodup ∧ (antidiagList sq).Nodup ∧
      (offdiagList sq).Nodup := by
  obtain ⟨ht, j, rfl⟩ := rts_from_sound stream fuel 0 sq hret
  rw [is_timeless, Bool.and_eq_true, Bool.and_eq_true] at ht
  exact ⟨hrows j,
    (hasFourDistinct_iff (l := diagList (stream j)) rfl).mp ht.1.1,
    (hasFourDistinct_iff (l := antidiagList (stream j)) rfl).mp ht.1.2,
    (hasFourDistinct_iff (l := offdiagList (stream j)) rfl).mp ht.2⟩

theorem c1_generated_square_properties_witness :
    allRowsPerm exampleSquare ∧ (diagList exampleSquare).Nodup ∧
      (antidiagList exampleSquare).Nodup ∧ (offdiagList exampleSquare).Nodup :=
  c1_generated_square_properties (fun _ => exampleSquare) 1 exampleSquare
    (fun _ => (by decide : allRowsPerm exampleSquare)) rfl

/-- C2 (counterexample).  For duelists with wins `[4, 2, 2, 0]` (descending)
and entry fee 10, `calculate_prizes` does NOT return `[20, 12, 6, 0]`: the
bonus test `duelists[i] == 4 - i` compares wins through `Duelist.__eq__`,
and at index 2 the duelist's 2 wins equal `4 - 2`, so that duelist also
receives the `base_fee` bonus. -/
theorem c2_counterexample :
    calculate_prizes [4, 2, 2, 0] 10 ≠ [20, 12, 6, 0] := by
  norm_num [calculate_prizes, List.range_succ]

/-- C2 (amended).  For entry fee 10 and wins `[4, 2, 2, 0]`, the prize
shares are `[20, 12, 8, 0]`: base shares `base_fee_unit * [9, 6, 3, 0] =
[18, 12, 6, 0]` plus a `base_fee_unit = 2` bonus at every index `i` with
`wins[i] == 4 - i` — here indices 0 and 2, not only the rank-1 duelist. -/
theorem c2_prizes_for_4220 :
    calculate_prizes [4, 2, 2, 0] 10 = [20, 12, 8, 0] := by
  norm_num [calculate_prizes, List.range_succ]

/-- C7 (counterexample).  `random_timeless_square` is a bare `while True:`
loop with no retry cap and no failure branch: a deterministic random source
that always produces the same non-timeless (permutation-rowed) square makes
it loop forever — no number of iterations returns. -/
theorem c7_counterexample :
    allRowsPerm nonTimelessSquare ∧ ¬ terminatesOn (fun _ => nonTimelessSquare) := by
  refine ⟨by decide, ?_⟩
  rintro ⟨fuel, hsome⟩
  rw [rts_from_none (fun _ => nonTimelessSquare)
    (fun _ => (by decide : is_timeless nonTimelessSquare = false)) fuel 0] at hsome
  simp at hsome

/-- C7 (amended).  The generator has no retry cap: it is unbounded rejection
sampling that terminates exactly by finding a sample passing `is_timeless`.
If the random source ever produces a timeless square, the loop terminates,
and whatever it returns passed the `is_timeless` test. -/
theorem c7_no_retry_cap (stream : ℕ → Square) (n : ℕ)
    (h : is_timeless (stream n) = true) :
    terminatesOn stream ∧
      ∀ fuel k sq, rts_from stream fuel k = some sq → is_timeless sq = true := by
  constructor
  · obtain ⟨sq, hsq⟩ := rts_from_complete stream n 0 (by simpa using h)
    exact ⟨n + 1, by rw [hsq]; rfl⟩
  · intro fuel k sq hsq
    exact (rts_from_sound stream fuel k sq hsq).1

theorem c7_no_retry_cap_witness :
    terminatesOn (fun _ => exampleSquare) ∧
      ∀ fuel k sq, rts_from (fun _ => exampleSquare) fuel k = some sq →
        is_timeless sq = true :=
  c7_no_retry_cap (fun _ => exampleSquare) 0 (by decide)

/-- C9.  The entry-fee validation (conditions `'integer'`, `'multiple_of_5'`,
`'less_than_30_characters'` in that order) rejects `"15.5"` (not an integer),
`"-10"` (negative), `"7"` (not a multiple of 5), and accepts `"0"` and
`"100"`. -/
theorem c9_entry_fee_boundary :
    entryFeeCheck "15.5" = false ∧ entryFeeCheck "-10" = false ∧
      entryFeeCheck "7" = false ∧ entryFeeCheck "0" = true ∧
      entryFeeCheck "100" = true := by
  decide

/-- C10.  `Duelist.__eq__` is identity-based between `Duelist` instances —
two distinct objects compare unequal even with identical attributes — while
comparison with an `int` holds exactly when it equals `wins`, and comparison
with a `str` exactly when it equals `name`. -/
theorem c10_duelist_eq (heap : ℕ → Duelist) (r1 r2 : ℕ) (k : ℤ) (t : String)
    (hne : r1 ≠ r2) (_hsame : heap r1 = heap r2) :
    duelist_eq heap r1 (.duelistRef r2) = false ∧
      (duelist_eq heap r1 (.intVal k) = true ↔ (heap r1).wins = k) ∧
      (duelist_eq heap r1 (.strVal t) = true ↔ (heap r1).name = t) := by
  refine ⟨?_, ?_, ?_⟩ <;> simp [duelist_eq, hne]

theorem c10_duelist_eq_witness :
    duelist_eq (fun _ => ⟨"Amadeus", 1⟩) 0 (.duelistRef 1) = false ∧
      (duelist_eq (fun _ => ⟨"Amadeus", 1⟩) 0 (.intVal 1) = true ↔
        ((fun _ => (⟨"Amadeus", 1⟩ : Duelist)) 0).wins = 1) ∧
      (duelist_eq (fun _ => ⟨"Amadeus", 1⟩) 0 (.strVal "Amadeus") = true ↔
        ((fun _ => (⟨"Amadeus", 1⟩ : Duelist)) 0).name = "Amadeus") :=
  c10_duelist_eq (fun _ => ⟨"Amadeus", 1⟩) 0 1 1 "Amadeus" (by decide) rfl

/-- C3 (counterexample).  Take preliminary wins `[2, 2, 1, 1]` (not tied:
its descending sort is in neither tied configuration).  The code's slot
order `np.flip(np.argsort(duelists))` is `[1, 0, 3, 2]` — the claimed
stable descending order with ties by ascending index would be
`[0, 1, 2, 3]` — and the code's first match pairs the top TWO slots
`{1, 0}`, not rank-1 vs rank-4 `{0, 3}` as claimed. -/
theorem c3_counterexample :
    is_tied [2, 2, 1, 1] = false ∧
    final_order [2, 2, 1, 1] = [1, 0, 3, 2] ∧
    claim_final_order [2, 2, 1, 1] = [0, 1, 2, 3] ∧
    final_order [2, 2, 1, 1] ≠ claim_final_order [2, 2, 1, 1] ∧
    ({(final_order [2, 2, 1, 1]).getD 0 0, (final_order [2, 2, 1, 1]).getD 1 0} :
        Finset ℕ) ≠
      {(claim_final_order [2, 2, 1, 1]).getD 0 0,
       (claim_final_order [2, 2, 1, 1]).getD 3 0} := by
  decide

set_option maxRecDepth 10000 in
set_option maxHeartbeats 1000000 in
/-- C3 (amended).  In the non-tied final round the slot order produced by
`np.flip(np.argsort(duelists))` lists the slots by descending win count with
ties broken by DESCENDING original slot index (the reversal of a stable
ascending argsort); it is a permutation of the slots, and the two matches
pair rank-1 vs rank-2 and rank-3 vs rank-4 of that order. -/
theorem c3_final_round_order : ∀ w : Fin 4 → Fin 4,
    final_order (winsVec w) = desc_order_ties_desc (winsVec w) ∧
    (final_order (winsVec w)).Perm [0, 1, 2, 3] ∧
    final_matches (winsVec w) =
      (((desc_order_ties_desc (winsVec w)).getD 0 0,
        (desc_order_ties_desc (winsVec w)).getD 1 0),
       ((desc_order_ties_desc (winsVec w)).getD 2 0,
        (desc_order_ties_desc (winsVec w)).getD 3 0)) := by
  decide

set_option maxRecDepth 10000 in
set_option maxHeartbeats 1000000 in
/-- C5.  The final round takes the randomised tie-break branch exactly when
the preliminary win counts, as a multiset, are `{3,1,1,1}` or `{2,2,2,0}`
(equivalently: sorted descending they equal `[3,1,1,1]` or `[2,2,2,0]`),
and the configuration drawn by `pairing_configurations[np.random.randint(3)]`
is always one of the three fixed configurations. -/
theorem c5_tie_break_condition :
    (∀ w : Fin 4 → Fin 4,
      is_tied (winsVec w) = true ↔
        ((winsVec w).Perm [3, 1, 1, 1] ∨ (winsVec w).Perm [2, 2, 2, 0])) ∧
    (∀ r : Fin 3, chosen_tiebreak r ∈ pairing_configurations ∧
      chosen_tiebreak r ∈ [[0, 1, 2, 3], [1, 3, 0, 2], [3, 0, 1, 2]]) := by
  decide

/-- Four pairwise-distinct slot indices cover all of `Fin 4`. -/
lemma fin4_cover : ∀ x y z w i : Fin 4,
    x ≠ y → x ≠ z → x ≠ w → y ≠ z → y ≠ w → z ≠ w →
    i = x ∨ i = y ∨ i = z ∨ i = w := by
  decide

/-- When the final-round quadruple is a permutation of the slots, slot `i`
receives the on-diagonal deck `decks[matchup[i, i]]`, whichever rank it
holds. -/
lemma final_deck_idx_diag (s : Square) (x y z w : Fin 4)
    (hxy : x ≠ y) (hxz : x ≠ z) (hxw : x ≠ w)
    (hyz : y ≠ z) (hyw : y ≠ w) (hzw : z ≠ w) (i : Fin 4) :
    final_deck_idx s x y z w i = s i i := by
  rcases fin4_cover x y z w i hxy hxz hxw hyz hyw hzw with rfl | rfl | rfl | rfl
  · simp [final_deck_idx]
  · simp [final_deck_idx, Ne.symm hxy]
  · simp [final_deck_idx, Ne.symm hxz, Ne.symm hyz]
  · simp [final_deck_idx, Ne.symm hxw, Ne.symm hyw, Ne.symm hzw]

/-- Mapping a square's row function over a permutation of the column indices
permutes the row. -/
lemma map_perm_row (s : Square) (i : Fin 4) (idx : List (Fin 4))
    (h : idx.Perm [0, 1, 2, 3]) :
    (idx.map (s i)).Perm (rowList s i) := by
  simpa [rowList] using h.map (s i)

/-- The deck index of slot `i` in preliminary round `r`, with the round's
quadruple taken from `pairing_configurations`. -/
def prelim_deck_for_round (s : Square) (r : Fin 3) (i : Fin 4) : ℕ :=
  prelim_deck_idx s (pairing_quad r).1 (pairing_quad r).2.1
    (pairing_quad r).2.2.1 (pairing_quad r).2.2.2 i

/-- C4.  For every square and every final-round slot quadruple that is a
permutation of the slots (both branches produce one), the four deck indices
a slot sees across the tournament — its off-diagonal lookup in each
preliminary round and its on-diagonal lookup in the final — are a
permutation of row `i` of the square.  With permutation rows, each duelist
thus plays each deck exactly once. -/
theorem c4_each_deck_once (s : Square) (x y z w : Fin 4)
    (hxy : x ≠ y) (hxz : x ≠ z) (hxw : x ≠ w)
    (hyz : y ≠ z) (hyw : y ≠ w) (hzw : z ≠ w) (i : Fin 4) :
    ([prelim_deck_for_round s 0 i, prelim_deck_for_round s 1 i,
      prelim_deck_for_round s 2 i, final_deck_idx s x y z w i]).Perm
      (rowList s i) := by
  rw [final_deck_idx_diag s x y z w hxy hxz hxw hyz hyw hzw i]
  fin_cases i
  · have h := map_perm_row s 0 [1, 2, 3, 0] (by decide)
    simpa [prelim_deck_for_round, pairing_quad, prelim_deck_idx] using h
  · have h := map_perm_row s 1 [0, 3, 2, 1] (by decide)
    simpa [prelim_deck_for_round, pairing_quad, prelim_deck_idx] using h
  · have h := map_perm_row s 2 [3, 0, 1, 2] (by decide)
    simpa [prelim_deck_for_round, pairing_quad, prelim_deck_idx] using h
  · have h := map_perm_row s 3 [2, 1, 0, 3] (by decide)
    simpa [prelim_deck_for_round, pairing_quad, prelim_deck_idx] using h

theorem c4_each_deck_once_witness :
    ([prelim_deck_for_round exampleSquare 0 0, prelim_deck_for_round exampleSquare 1 0,
      prelim_deck_for_round exampleSquare 2 0, final_deck_idx exampleSquare 1 0 3 2 0]).Perm
      (rowList exampleSquare 0) :=
  c4_each_deck_once exampleSquare 1 0 3 2 (by decide) (by decide) (by decide)
    (by decide) (by decide) (by decide) 0

/-- Recording a round result never changes a duelist's name. -/
lemma record_round_name (d : Fin 4 → Duelist) (wxy wzw : String) (i : Fin 4) :
    (record_round d wxy wzw i).name = (d i).name := by
  unfold record_round
  split <;> rfl

/-- Recording adds one win at a slot whose name matches a winner string. -/
lemma record_round_wins (d : Fin 4 → Duelist) (wxy wzw : String) (i : Fin 4) :
    (record_round d wxy wzw i).wins =
      (d i).wins + (if (d i).name = wxy ∨ (d i).name = wzw then 1 else 0) := by
  unfold record_round
  by_cases h : (d i).name = wxy ∨ (d i).name = wzw
  · have hb : ((d i).name == wxy || (d i).name == wzw) = true := by
      rcases h with h | h <;> simp [h]
    rw [if_pos hb, if_pos h]
  · have hb : ((d i).name == wxy || (d i).name == wzw) = false := by
      push_neg at h
      simp [h.1, h.2]
    rw [if_neg (by simp [hb]), if_neg h]
    simp

/-- Summing an indicator of membership in a two-element set of slots. -/
lemma sum_if_pair : ∀ a b : Fin 4, a ≠ b →
    (∑ i : Fin 4, (if i = a ∨ i = b then (1 : ℤ) else 0)) = 2 := by
  decide

/-- One round adds exactly 2 to the total win count, provided the two winner
strings name one duelist of each (disjoint) match and names are unique. -/
lemma sumWins_record_of_winners (d : Fin 4 → Duelist) (a b : Fin 4)
    (hab : a ≠ b)
    (hinj : ∀ i j : Fin 4, (d i).name = (d j).name → i = j)
    (wxy wzw : String) (h1 : wxy = (d a).name) (h2 : wzw = (d b).name) :
    sumWins (record_round d wxy wzw) = sumWins d + 2 := by
  have hpred : ∀ i : Fin 4, ((d i).name = wxy ∨ (d i).name = wzw) ↔ (i = a ∨ i = b) := by
    intro i
    subst h1 h2
    constructor
    · rintro (h | h)
      · exact Or.inl (hinj i a h)
      · exact Or.inr (hinj i b h)
    · rintro (rfl | rfl)
      · exact Or.inl rfl
      · exact Or.inr rfl
  have hwins : ∀ i : Fin 4, (record_round d wxy wzw i).wins =
      (d i).wins + (if i = a ∨ i = b then (1 : ℤ) else 0) := by
    intro i
    rw [record_round_wins]
    simp only [hpred i]
  unfold sumWins
  calc (∑ i : Fin 4, (record_round d wxy wzw i).wins)
      = ∑ i : Fin 4, ((d i).wins + (if i = a ∨ i = b then (1 : ℤ) else 0)) :=
        Finset.sum_congr rfl (fun i _ => hwins i)
    _ = (∑ i : Fin 4, (d i).wins) + ∑ i : Fin 4, (if i = a ∨ i = b then (1 : ℤ) else 0) :=
        Finset.sum_add_distrib
    _ = (∑ i : Fin 4, (d i).wins) + 2 := by rw [sum_if_pair a b hab]

/-- The same, with each winner string only known to name one of the two
duelists of its match, the two matches being on disjoint slots. -/
lemma sumWins_record_round (d : Fin 4 → Duelist) (x y z w : Fin 4)
    (hxz : x ≠ z) (hxw : x ≠ w) (hyz : y ≠ z) (hyw : y ≠ w)
    (hinj : ∀ i j : Fin 4, (d i).name = (d j).name → i = j)
    (wxy wzw : String)
    (hwxy : wxy = (d x).name ∨ wxy = (d y).name)
    (hwzw : wzw = (d z).name ∨ wzw = (d w).name) :
    sumWins (record_round d wxy wzw) = sumWins d + 2 := by
  rcases hwxy with h1 | h1 <;> rcases hwzw with h2 | h2
  · exact sumWins_record_of_winners d x z hxz hinj wxy wzw h1 h2
  · exact sumWins_record_of_winners d x w hxw hinj wxy wzw h1 h2
  · exact sumWins_record_of_winners d y z hyz hinj wxy wzw h1 h2
  · exact sumWins_record_of_winners d y w hyw hinj wxy wzw h1 h2

/-- C6.  Starting from four duelists with pairwise-distinct names and zero
wins, each round's recording step adds exactly one win to one duelist per
match, so after the three preliminary rounds (slot quadruples
`pairing_configurations[0..2]`) the win counts sum to 6, and after the final
round (any quadruple that is a permutation of the slots) they sum to 8 —
for every sequence of validated winner inputs (each winner string is one of
the two names of its match). -/
theorem c6_win_totals (d0 : Fin 4 → Duelist)
    (hinj : ∀ i j : Fin 4, (d0 i).name = (d0 j).name → i = j)
    (hzero : ∀ i : Fin 4, (d0 i).wins = 0)
    (w1 w2 w3 w4 w5 w6 w7 w8 : String) (x y z w : Fin 4)
    (_hxy : x ≠ y) (hxz : x ≠ z) (hxw : x ≠ w)
    (hyz : y ≠ z) (hyw : y ≠ w) (_hzw : z ≠ w)
    (h1 : w1 = (d0 0).name ∨ w1 = (d0 1).name)
    (h2 : w2 = (d0 2).name ∨ w2 = (d0 3).name)
    (h3 : w3 = (d0 1).name ∨ w3 = (d0 3).name)
    (h4 : w4 = (d0 0).name ∨ w4 = (d0 2).name)
    (h5 : w5 = (d0 3).name ∨ w5 = (d0 0).name)
    (h6 : w6 = (d0 1).name ∨ w6 = (d0 2).name)
    (h7 : w7 = (d0 x).name ∨ w7 = (d0 y).name)
    (h8 : w8 = (d0 z).name ∨ w8 = (d0 w).name) :
    sumWins (record_round (record_round (record_round d0 w1 w2) w3 w4) w5 w6) = 6 ∧
    sumWins (record_round
      (record_round (record_round (record_round d0 w1 w2) w3 w4) w5 w6) w7 w8) = 8 := by
  have s0 : sumWins d0 = 0 := by
    unfold sumWins
    rw [Fin.sum_univ_four, hzero, hzero, hzero, hzero]
    ring
  have hn1 : ∀ i, ((record_round d0 w1 w2) i).name = (d0 i).name :=
    record_round_name d0 w1 w2
  have hn2 : ∀ i, ((record_round (record_round d0 w1 w2) w3 w4) i).name = (d0 i).name :=
    fun i => (record_round_name _ w3 w4 i).trans (hn1 i)
  have hn3 : ∀ i,
      ((record_round (record_round (record_round d0 w1 w2) w3 w4) w5 w6) i).name =
        (d0 i).name :=
    fun i => (record_round_name _ w5 w6 i).trans (hn2 i)
  have hinj1 : ∀ i j : Fin 4,
      ((record_round d0 w1 w2) i).name = ((record_round d0 w1 w2) j).name → i = j :=
    fun i j h => hinj i j (by rwa [hn1 i, hn1 j] at h)
  have hinj2 : ∀ i j : Fin 4,
      ((record_round (record_round d0 w1 w2) w3 w4) i).name =
        ((record_round (record_round d0 w1 w2) w3 w4) j).name → i = j :=
    fun i j h => hinj i j (by rwa [hn2 i, hn2 j] at h)
  have hinj3 : ∀ i j : Fin 4,
      ((record_round (record_round (record_round d0 w1 w2) w3 w4) w5 w6) i).name =
        ((record_round (record_round (record_round d0 w1 w2) w3 w4) w5 w6) j).name →
        i = j :=
    fun i j h => hinj i j (by rwa [hn3 i, hn3 j] at h)
  have e1 : sumWins (record_round d0 w1 w2) = sumWins d0 + 2 :=
    sumWins_record_round d0 0 1 2 3 (by decide) (by decide) (by decide) (by decide)
      hinj w1 w2 h1 h2
  have e2 : sumWins (record_round (record_round d0 w1 w2) w3 w4) =
      sumWins (record_round d0 w1 w2) + 2 :=
    sumWins_record_round _ 1 3 0 2 (by decide) (by decide) (by decide) (by decide)
      hinj1 w3 w4 (by rw [hn1 1, hn1 3]; exact h3) (by rw [hn1 0, hn1 2]; exact h4)
  have e3 : sumWins (record_round (record_round (record_round d0 w1 w2) w3 w4) w5 w6) =
      sumWins (record_round (record_round d0 w1 w2) w3 w4) + 2 :=
    sumWins_record_round _ 3 0 1 2 (by decide) (by decide) (by decide) (by decide)
      hinj2 w5 w6 (by rw [hn2 3, hn2 0]; exact h5) (by rw [hn2 1, hn2 2]; exact h6)
  have e4 : sumWins (record_round
      (record_round (record_round (record_round d0 w1 w2) w3 w4) w5 w6) w7 w8) =
      sumWins (record_round (record_round (record_round d0 w1 w2) w3 w4) w5 w6) + 2 :=
    sumWins_record_round _ x y z w hxz hxw hyz hyw
      hinj3 w7 w8 (by rw [hn3 x, hn3 y]; exact h7) (by rw [hn3 z, hn3 w]; exact h8)
  constructor
  · rw [e3, e2, e1, s0]; ring
  · rw [e4, e3, e2, e1, s0]; ring

theorem c6_win_totals_witness :
    sumWins (record_round (record_round (record_round
      (fun i => ⟨["Ada", "Bob", "Cid", "Dan"].getD i.val "", 0⟩) "Ada" "Cid")
      "Bob" "Ada") "Dan" "Bob") = 6 ∧
    sumWins (record_round (record_round (record_round (record_round
      (fun i => ⟨["Ada", "Bob", "Cid", "Dan"].getD i.val "", 0⟩) "Ada" "Cid")
      "Bob" "Ada") "Dan" "Bob") "Ada" "Cid") = 8 :=
  c6_win_totals (fun i => ⟨["Ada", "Bob", "Cid", "Dan"].getD i.val "", 0⟩)
    (by decide) (by decide) "Ada" "Cid" "Bob" "Ada" "Dan" "Bob" "Ada" "Cid"
    0 1 2 3 (by decide) (by decide) (by decide) (by decide) (by decide) (by decide)
    (Or.inl rfl) (Or.inl rfl) (Or.inl rfl) (Or.inl rfl) (Or.inl rfl) (Or.inl rfl)
    (Or.inl rfl) (Or.inl rfl)

/-- The duplicate-name set of `enter_unique_duelists` is empty exactly when
the entered names are pairwise distinct. -/
lemma has_duplicate_names_eq_false_iff (names : List String) :
    has_duplicate_names names = false ↔ names.Nodup := by
  rw [List.nodup_iff_count_le_one]
  unfold has_duplicate_names
  rw [List.any_eq_false]
  constructor
  · intro h a
    by_cases ha : a ∈ names
    · have := h a ha
      simp only [decide_eq_true_eq] at this
      omega
    · rw [List.count_eq_zero_of_not_mem ha]
      omega
  · intro h n hn
    simp only [decide_eq_true_eq]
    have := h n
    omega

/-- C8.  Whenever `Duelist.enter_unique_duelists` returns, the four returned
names are pairwise distinct; moreover the returned quadruple is one of the
entered quadruples, and every quadruple entered before it contained a
duplicate and was rejected (forcing re-entry of all four names) — for every
input sequence. -/
theorem c8_unique_names (attempts : ℕ → List String)
    (hlen : ∀ j, (attempts j).length = 4) :
    ∀ fuel k names, enter_unique_duelists attempts fuel k = some names →
      names.length = 4 ∧ names.Nodup ∧
        ∃ j, k ≤ j ∧ names = attempts j ∧
          ∀ m, k ≤ m → m < j → has_duplicate_names (attempts m) = true := by
  intro fuel
  induction fuel with
  | zero =>
    intro k names h
    simp [enter_unique_duelists] at h
  | succ n ih =>
    intro k names h
    rw [enter_unique_duelists] at h
    by_cases hd : has_duplicate_names (attempts k) = true
    · rw [if_pos hd] at h
      obtain ⟨hl, hnd, j, hkj, hj, hearlier⟩ := ih (k + 1) names h
      refine ⟨hl, hnd, j, by omega, hj, ?_⟩
      intro m hkm hmj
      by_cases hm : m = k
      · rwa [hm]
      · exact hearlier m (by omega) hmj
    · rw [if_neg hd] at h
      obtain rfl : attempts k = names := by simpa using h
      refine ⟨hlen k, ?_, k, le_refl k, rfl, fun m hkm hmk => by omega⟩
      exact (has_duplicate_names_eq_false_iff (attempts k)).mp (by revert hd; cases has_duplicate_names (attempts k) <;> simp)

theorem c8_unique_names_witness :
    (["Johann", "Johann C", "Amadeus", "Falco"] : List String).length = 4 ∧
      (["Johann", "Johann C", "Amadeus", "Falco"] : List String).Nodup ∧
      ∃ j, 0 ≤ j ∧
        (["Johann", "Johann C", "Amadeus", "Falco"] : List String) =
          (fun k => if k = 0 then ["Johann", "Johann", "Amadeus", "Amadeus"]
            else ["Johann", "Johann C", "Amadeus", "Falco"]) j ∧
        ∀ m, 0 ≤ m → m < j →
          has_duplicate_names
            ((fun k => if k = 0 then ["Johann", "Johann", "Amadeus", "Amadeus"]
              else ["Johann", "Johann C", "Amadeus", "Falco"]) m) = true :=
  c8_unique_names
    (fun k => if k = 0 then ["Johann", "Johann", "Amadeus", "Amadeus"]
      else ["Johann", "Johann C", "Amadeus", "Falco"])
    (fun j => by by_cases h : j = 0 <;> simp [h])
    2 0 ["Johann", "Johann C", "Amadeus", "Falco"] (by decide)
